import Mathlib

/-!
Verification of the EKG strip synthesis engine of `src/components/EKGExam2Game.tsx`.

The TypeScript source is shallowly embedded over exact rationals:

* a sample (`Point`) is a pair `(x, y)` of rationals, as in `type Point = [number, number]`;
* `Math.sin(t * Math.PI)` is abstracted as an explicit function parameter `sinpi : ℚ → ℚ`
  (the transcendental part of the signal is opaque to every property proved here; the
  bound `|sinpi t| <= 1` is assumed where a property needs it);
* `Math.random()` is abstracted as an explicit stream `u : ℕ → ℚ` of successive draws;
* a JavaScript loop `for (let i = 0; i < d; i++)` over a (possibly fractional) float
  bound `d` executes for the integer values `i = 0, 1, ..., ⌈d⌉ - 1`; such loops are
  embedded as maps over `List.range ⌈d⌉₊`;
* a `while (cursor < bound) { ...; cursor += step }` loop with positive `step` starting
  at `cursor = c0` runs for exactly `⌈(bound - c0) / step⌉₊` iterations, and is embedded
  in that closed form;
* the in-place element mutation `points[i][1] = y` is embedded as the structural
  update `setY`.
-/

abbrev Point : Type := ℚ × ℚ

/-- Beat configuration record, from `type BeatOptions` (all fields optional). -/
structure BeatOptions where
  amp : Option ℚ := none
  pr : Option ℚ := none
  qrs : Option ℚ := none
  stElevation : Option ℚ := none
  tPolarity : Option ℚ := none

/-- From `const SMALL_BOX = 5`. -/
def SMALL_BOX : ℚ := 5

/-- From `const PX_PER_SEC = SMALL_BOX * 25`. -/
def PX_PER_SEC : ℚ := SMALL_BOX * 25

/-- From `const STRIP_SECONDS = 6`. -/
def STRIP_SECONDS : ℚ := 6

/-- From `const STRIP_WIDTH = PX_PER_SEC * STRIP_SECONDS`. -/
def STRIP_WIDTH : ℚ := PX_PER_SEC * STRIP_SECONDS

/-- `STRIP_WIDTH` as the natural number 750; used where the source treats it as an
array length (`genAflutter(STRIP_WIDTH)`, `genAfib(STRIP_WIDTH)`). -/
def stripWidthN : ℕ := 750

theorem stripWidthN_cast : (stripWidthN : ℚ) = STRIP_WIDTH := by
  norm_num [stripWidthN, STRIP_WIDTH, PX_PER_SEC, SMALL_BOX, STRIP_SECONDS]

/-- From `const rand = (min, max) => Math.random() * (max - min) + min`; the
`Math.random()` draw is passed in as `u`. -/
def rand (u lo hi : ℚ) : ℚ := u * (hi - lo) + lo

/-- One sampled segment: the loop `for (let i = 0; i < d; i++) points.push([start + i, f i])`. -/
def segPoints (start d : ℚ) (f : ℕ → ℚ) : List Point :=
  (List.range ⌈d⌉₊).map (fun (i : ℕ) => (start + (i : ℚ), f i))

/-- `const pDuration = 0.08 * pxPerSec` in `genNormalBeat`. -/
def pDur (pps : ℚ) : ℚ := 8 / 100 * pps

/-- `const prSegment = Math.max(0, pr - 0.08) * pxPerSec` in `genNormalBeat`
(with the default `pr = 0.16`). -/
def prSegDur (pps : ℚ) (o : BeatOptions) : ℚ :=
  max 0 (o.pr.getD (16 / 100) - 8 / 100) * pps

/-- `const qrsDuration = qrs * pxPerSec` in `genNormalBeat` (default `qrs = 0.08`). -/
def qrsDur (pps : ℚ) (o : BeatOptions) : ℚ := o.qrs.getD (8 / 100) * pps

/-- `const stSegment = 0.08 * pxPerSec` in `genNormalBeat`. -/
def stSegDur (pps : ℚ) : ℚ := 8 / 100 * pps

/-- `const tDuration = 0.16 * pxPerSec` in `genNormalBeat`. -/
def tDur (pps : ℚ) : ℚ := 16 / 100 * pps

/-- `const returnDuration = 0.04 * pxPerSec` in `genNormalBeat`. -/
def retDur (pps : ℚ) : ℚ := 4 / 100 * pps

/-- Total duration (in pixels) of a beat: the sum of the six segment durations. -/
def beatSpan (pps : ℚ) (o : BeatOptions) : ℚ :=
  pDur pps + prSegDur pps o + qrsDur pps o + stSegDur pps + tDur pps + retDur pps

/-- The piecewise QRS profile `t < 0.15 ? -0.3 : t < 0.5 ? 1.2 : t < 0.85 ? -0.4 : 0`. -/
def qrsShape (t : ℚ) : ℚ :=
  if t < 15 / 100 then -(3 / 10) else if t < 5 / 10 then 12 / 10
  else if t < 85 / 100 then -(4 / 10) else 0

/-- From `function genNormalBeat(x0, pxPerSec, options)`: the six consecutive sampled
segments (P wave, PR segment, QRS complex, ST segment, T wave, return to baseline),
with `baseline = 90` and defaults `amp = 22`, `stElevation = 0`, `tPolarity = 1`. -/
def genNormalBeat (sinpi : ℚ → ℚ) (x0 pps : ℚ) (o : BeatOptions) : List Point :=
  let amp := o.amp.getD 22
  let stElev := o.stElevation.getD 0
  let tPol := o.tPolarity.getD 1
  segPoints x0 (pDur pps)
      (fun i => 90 - sinpi ((i : ℚ) / pDur pps) * (amp * (25 / 100))) ++
    segPoints (x0 + pDur pps) (prSegDur pps o) (fun _ => 90) ++
    segPoints (x0 + pDur pps + prSegDur pps o) (qrsDur pps o)
      (fun i => 90 - qrsShape ((i : ℚ) / qrsDur pps o) * amp) ++
    segPoints (x0 + pDur pps + prSegDur pps o + qrsDur pps o) (stSegDur pps)
      (fun _ => 90 - stElev) ++
    segPoints (x0 + pDur pps + prSegDur pps o + qrsDur pps o + stSegDur pps) (tDur pps)
      (fun i => 90 - sinpi ((i : ℚ) / tDur pps) * (amp * (4 / 10)) * tPol) ++
    segPoints (x0 + pDur pps + prSegDur pps o + qrsDur pps o + stSegDur pps + tDur pps)
      (retDur pps) (fun _ => 90)

/-- Number of beats laid down by the loop
`let cursor = 10; while (cursor < STRIP_WIDTH - 10) { ...; cursor += step }`:
the closed form of that loop for a positive `step`. -/
def tileCount (step : ℚ) : ℕ :=
  if 0 < step then ⌈(STRIP_WIDTH - 10 - 10) / step⌉₊ else 0

/-- A strip tiled from identical beats at interval `step`, starting at `cursor = 10`:
the shared shape of the `while` loops in `genSinusStrip` and in the `psvt`,
`junctional`, `firstdeg`, `stemi_inferior` and `nstemi` branches of `buildStrip`. -/
def tiledStrip (sinpi : ℚ → ℚ) (step pps : ℚ) (o : BeatOptions) : List Point :=
  (List.range (tileCount step)).flatMap
    (fun (n : ℕ) => genNormalBeat sinpi (10 + (n : ℚ) * step) pps o)

/-- From `function genSinusStrip(bpm, options)`: `rr = 60 / bpm` seconds per beat. -/
def genSinusStrip (sinpi : ℚ → ℚ) (bpm : ℚ) (o : BeatOptions) : List Point :=
  tiledStrip sinpi (60 / bpm * PX_PER_SEC) PX_PER_SEC o

/-- JavaScript float remainder `a % b` for `a >= 0, b > 0` (the only use in the source). -/
def jsMod (a b : ℚ) : ℚ := a - b * (⌊a / b⌋ : ℤ)

/-- Closed form of `for (let start = 0; start < bound; start += step)` for positive
`step`: the successive values of `start`. -/
def forStarts (step bound : ℚ) : List ℚ :=
  if 0 < step then (List.range ⌈bound / step⌉₊).map (fun (n : ℕ) => (n : ℚ) * step) else []

/-- The in-place update `points[i][1] = y` (y-coordinate only; out-of-range `i` is
never produced by the source, and is a no-op here). -/
def setY : List Point → ℕ → ℚ → List Point
  | [], _, _ => []
  | p :: l, 0, y => (p.1, y) :: l
  | p :: l, Nat.succ n, y => p :: setY l n y

/-- Sequential application of a list of `points[i][1] = y` updates. -/
def applyWrites (l : List Point) (ws : List (ℕ × ℚ)) : List Point :=
  ws.foldl (fun acc w => setY acc w.1 w.2) l

/-- The sawtooth baseline of `genAflutter`: `flutterPeriod = 60 / rate`,
`pixelsPerWave = width * flutterPeriod`, `wavePosition = (i % pixelsPerWave) / pixelsPerWave`,
`y = 90 - Math.abs(wavePosition - 0.5) * 2 * amp * 0.5`. -/
def flutterBase (width : ℕ) (amp rate : ℚ) : List Point :=
  let ppw := (width : ℚ) * (60 / rate)
  (List.range width).map
    (fun (i : ℕ) => ((i : ℚ), 90 - |jsMod (i : ℚ) ppw / ppw - 5 / 10| * 2 * amp * (5 / 10)))

/-- The conducted-beat overlay writes of `genAflutter`: for each
`start = 0, pixelsPerWave*4, ...` below `width` and each `k < 0.08 * width`, write at
index `Math.min(len - 1, Math.floor(start + k))` the value
`90 - (k < 0.02*width ? -4 : k < 0.04*width ? 20 : -6)`. -/
def flutterWrites (width : ℕ) (rate : ℚ) (len : ℕ) : List (ℕ × ℚ) :=
  let ppw := (width : ℚ) * (60 / rate)
  (forStarts (ppw * 4) (width : ℚ)).flatMap (fun start =>
    (List.range ⌈(8 : ℚ) / 100 * width⌉₊).map (fun (k : ℕ) =>
      ((min ((len : ℤ) - 1) ⌊start + (k : ℚ)⌋).toNat,
        (90 : ℚ) -
          (if (k : ℚ) < 2 / 100 * width then -4
           else if (k : ℚ) < 4 / 100 * width then 20 else -6))))

/-- From `function genAflutter(width, amp = 18, rate = 300)`. -/
def genAflutter (width : ℕ) (amp rate : ℚ) : List Point :=
  applyWrites (flutterBase width amp rate)
    (flutterWrites width rate (flutterBase width amp rate).length)

/-- Accumulated random-walk offset after `n` draws: the `y += rand(-1.2, 1.2)` updates
of `genAfib`'s baseline loop. -/
def walkSum (u : ℕ → ℚ) (n : ℕ) : ℚ :=
  ((List.range n).map (fun (j : ℕ) => rand (u j) (-(12 / 10)) (12 / 10))).sum

/-- The fibrillatory baseline of `genAfib`: point `i` is `[i, y]` where `y` has been
incremented `i + 1` times from the baseline 90. -/
def afibBase (u : ℕ → ℚ) (width : ℕ) : List Point :=
  (List.range width).map (fun (i : ℕ) => ((i : ℚ), 90 + walkSum u (i + 1)))

/-- One conducted-beat window of `genAfib`: the loop
`for (let k = 0; k < 0.06 * width && cursor + k < width; k++)` writing at index
`Math.floor(cursor + k)` the value `90 - (k < 0.02*width ? -4 : k < 0.03*width ? 18 : -6)`. -/
def afibWrites (width : ℕ) (cursor : ℚ) : List (ℕ × ℚ) :=
  (List.range (min ⌈(6 : ℚ) / 100 * width⌉₊ ⌈(width : ℚ) - cursor⌉₊)).map (fun (k : ℕ) =>
    ((⌊cursor + (k : ℚ)⌋).toNat,
      (90 : ℚ) -
        (if (k : ℚ) < 2 / 100 * width then -4
         else if (k : ℚ) < 3 / 100 * width then 18 else -6)))

/-- The `while (cursor < width)` loop of `genAfib`, fuelled: each iteration overlays one
conducted-beat window, then advances the cursor by `rand(0.5, 1.1) * width * 0.2`.
For draws in `[0, 1]` every advance is at least `0.1 * width`, so fuel 10 reproduces
the source loop exactly (after 10 advances the cursor is at least `width`). -/
def afibLoop (u : ℕ → ℚ) (width : ℕ) : ℕ → ℕ → ℚ → List Point → List Point
  | 0, _, _, pts => pts
  | Nat.succ fuel, d, cursor, pts =>
    if cursor < (width : ℚ) then
      afibLoop u width fuel (d + 1)
        (cursor + rand (u d) (5 / 10) (11 / 10) * width * (2 / 10))
        (applyWrites pts (afibWrites width cursor))
    else pts

/-- From `function genAfib(width)`: baseline draws consume `u 0 .. u (width-1)`, the
conducted-beat loop consumes `u width, u (width+1), ...`. -/
def genAfib (u : ℕ → ℚ) (width : ℕ) : List Point :=
  afibLoop u width 10 width 0 (afibBase u width)

/-- From `function cropPoints(points, start, end)` (parameter `end` renamed `stop`). -/
def cropPoints (points : List Point) (start stop : ℚ) : List Point :=
  (points.filter (fun p => decide (start ≤ p.1) && decide (p.1 ≤ stop))).map
    (fun p => (p.1 - start, p.2))

/-- Options `{ pr: 0.14 }` of the `sinus_pac` branch. -/
def pacOpts : BeatOptions := { pr := some (14 / 100) }

/-- Options `{ amp: 18, pr: 0.1, qrs: 0.06 }` of the `psvt` branch. -/
def psvtOpts : BeatOptions :=
  { amp := some 18, pr := some (1 / 10), qrs := some (6 / 100) }

/-- Options `{ amp: 16, pr: 0.06, tPolarity: -1 }` of the `junctional` branch. -/
def junctionalOpts : BeatOptions :=
  { amp := some 16, pr := some (6 / 100), tPolarity := some (-1) }

/-- Options `{ pr: 0.26 }` of the `firstdeg` branch. -/
def firstdegOpts : BeatOptions := { pr := some (26 / 100) }

/-- Options `{ stElevation: -6 }` of the `stemi_inferior` branch. -/
def stemiOpts : BeatOptions := { stElevation := some (-6) }

/-- Options `{ stElevation: 3, tPolarity: -1 }` of the `nstemi` branch. -/
def nstemiOpts : BeatOptions := { stElevation := some 3, tPolarity := some (-1) }

/-- The `sinus_pac` branch of `buildStrip`: tiling at `rr = 0.8 * PX_PER_SEC` with beat
index 2 shifted early by `Math.max(-cursor + 2, -0.3 * PX_PER_SEC)`. -/
def pacStrip (sinpi : ℚ → ℚ) : List Point :=
  (List.range (tileCount (8 / 10 * PX_PER_SEC))).flatMap (fun (n : ℕ) =>
    let cursor := 10 + (n : ℚ) * (8 / 10 * PX_PER_SEC)
    genNormalBeat sinpi
      (cursor + (if n = 2 then max (-cursor + 2) (-(3 / 10) * PX_PER_SEC) else 0))
      PX_PER_SEC pacOpts)

/-- From `function buildStrip(kind)`. At runtime the TypeScript `StripKind` union is a
plain string, so the dispatch is embedded over `String`; the trailing
`return genSinusStrip(75)` is the fallback for unrecognized identifiers. -/
def buildStrip (sinpi : ℚ → ℚ) (u : ℕ → ℚ) (kind : String) : List Point :=
  if kind = "sinus" then genSinusStrip sinpi 75 {}
  else if kind = "sinus_brady" then genSinusStrip sinpi 48 {}
  else if kind = "sinus_tachy" then genSinusStrip sinpi 120 {}
  else if kind = "aflutter" then genAflutter stripWidthN 18 300
  else if kind = "afib" then genAfib u stripWidthN
  else if kind = "sinus_pac" then pacStrip sinpi
  else if kind = "psvt" then tiledStrip sinpi (4 / 10 * PX_PER_SEC) (PX_PER_SEC * (7 / 10)) psvtOpts
  else if kind = "junctional" then tiledStrip sinpi (1 * PX_PER_SEC) PX_PER_SEC junctionalOpts
  else if kind = "firstdeg" then tiledStrip sinpi (8 / 10 * PX_PER_SEC) PX_PER_SEC firstdegOpts
  else if kind = "stemi_inferior" then tiledStrip sinpi (8 / 10 * PX_PER_SEC) PX_PER_SEC stemiOpts
  else if kind = "nstemi" then tiledStrip sinpi (8 / 10 * PX_PER_SEC) PX_PER_SEC nstemiOpts
  else genSinusStrip sinpi 75 {}

/-- A concrete stand-in for `sinpi` used by concrete witnesses. -/
def zeroSin : ℚ → ℚ := fun _ => 0

/-- A concrete stand-in for the random stream used by concrete witnesses. -/
def zeroDraws : ℕ → ℚ := fun _ => 0

/-! ### Basic lemmas about sampled segments -/

theorem mem_segPoints {s d : ℚ} {f : ℕ → ℚ} {p : Point} :
    p ∈ segPoints s d f ↔ ∃ i : ℕ, i < ⌈d⌉₊ ∧ p = (s + (i : ℚ), f i) := by
  simp only [segPoints, List.mem_map, List.mem_range]
  constructor
  · rintro ⟨i, hi, rfl⟩; exact ⟨i, hi, rfl⟩
  · rintro ⟨i, hi, rfl⟩; exact ⟨i, hi, rfl⟩

theorem segPoints_fst_bound {s d : ℚ} {f : ℕ → ℚ} {p : Point}
    (hp : p ∈ segPoints s d f) : s ≤ p.1 ∧ p.1 < s + d := by
  obtain ⟨i, hi, rfl⟩ := mem_segPoints.mp hp
  have hid : (i : ℚ) < d := Nat.lt_ceil.mp hi
  constructor
  · simp only []
    have : (0 : ℚ) ≤ (i : ℚ) := Nat.cast_nonneg i
    linarith
  · simp only []
    linarith

theorem segPoints_eq_nil {s d : ℚ} {f : ℕ → ℚ} (hd : d ≤ 0) : segPoints s d f = [] := by
  simp [segPoints, Nat.ceil_eq_zero.mpr hd]

theorem segPoints_length (s d : ℚ) (f : ℕ → ℚ) : (segPoints s d f).length = ⌈d⌉₊ := by
  simp [segPoints]

/-! ### The step relation and run invariant used for monotonicity and extent bounds -/

/-- Relation between consecutive samples: time-position strictly increases and by at
most one pixel. -/
def stepR (p q : Point) : Prop := p.1 < q.1 ∧ q.1 ≤ p.1 + 1

/-- Invariant of a sampled run occupying the half-open window `[lo, hi)`:
consecutive samples satisfy `stepR`, the first sample (if any) sits exactly at `lo`,
the last sample sits in `(hi - 1, hi)` up to closure, every sample sits in `[lo, hi)`,
and an empty run forces a degenerate window. -/
def GoodRun (l : List Point) (lo hi : ℚ) : Prop :=
  List.Chain' stepR l ∧ (∀ p ∈ l.head?, p.1 = lo) ∧
    (∀ p ∈ l.getLast?, hi - 1 ≤ p.1 ∧ p.1 < hi) ∧
    (∀ p ∈ l, lo ≤ p.1 ∧ p.1 < hi) ∧ (l = [] → lo = hi)

theorem goodRun_segPoints (s d : ℚ) (f : ℕ → ℚ) (hd : 0 ≤ d) :
    GoodRun (segPoints s d f) s (s + d) := by
  refine ⟨?_, ?_, ?_, ?_, ?_⟩
  · rw [segPoints, List.chain'_map]
    rcases Nat.eq_zero_or_pos ⌈d⌉₊ with h0 | hpos
    · rw [h0]; exact List.chain'_nil
    · obtain ⟨c, hc⟩ := Nat.exists_eq_succ_of_ne_zero (Nat.pos_iff_ne_zero.mp hpos)
      rw [hc, List.chain'_range_succ]
      intro m _
      constructor
      · push_cast; linarith
      · push_cast; linarith
  · intro p hp
    rcases Nat.eq_zero_or_pos ⌈d⌉₊ with h0 | hpos
    · simp [segPoints, h0] at hp
    · obtain ⟨c, hc⟩ := Nat.exists_eq_succ_of_ne_zero (Nat.pos_iff_ne_zero.mp hpos)
      rw [segPoints, hc, List.range_succ_eq_map] at hp
      simp only [List.map_cons, List.head?_cons, Option.mem_def, Option.some.injEq] at hp
      rw [← hp]
      simp
  · intro p hp
    rcases Nat.eq_zero_or_pos ⌈d⌉₊ with h0 | hpos
    · simp [segPoints, h0] at hp
    · obtain ⟨c, hc⟩ := Nat.exists_eq_succ_of_ne_zero (Nat.pos_iff_ne_zero.mp hpos)
      rw [segPoints, hc, List.range_succ, List.map_append] at hp
      simp only [List.map_cons, List.map_nil, List.getLast?_concat, Option.mem_def,
        Option.some.injEq] at hp
      have h1 : (c : ℚ) < d := Nat.lt_ceil.mp (by rw [hc]; exact Nat.lt_succ_self c)
      have h2 : d ≤ (c : ℚ) + 1 := by
        have hlc := Nat.le_ceil d
        rw [hc] at hlc
        push_cast at hlc
        linarith
      rw [← hp]
      constructor
      · simp only []
        linarith
      · simp only []
        linarith
  · intro p hp
    exact segPoints_fst_bound hp
  · intro hnil
    have : ⌈d⌉₊ = 0 := by
      by_contra hne
      have := List.length_eq_zero.mpr hnil
      rw [segPoints_length] at this
      exact hne this
    have hle : d ≤ 0 := Nat.ceil_eq_zero.mp this
    linarith

theorem goodRun_append {a b : List Point} {lo mid hi : ℚ}
    (ha : GoodRun a lo mid) (hb : GoodRun b mid hi)
    (h1 : lo ≤ mid) (h2 : mid ≤ hi) : GoodRun (a ++ b) lo hi := by
  obtain ⟨ca, heada, lasta, mema, nila⟩ := ha
  obtain ⟨cb, headb, lastb, memb, nilb⟩ := hb
  refine ⟨?_, ?_, ?_, ?_, ?_⟩
  · rw [List.chain'_append]
    refine ⟨ca, cb, ?_⟩
    intro x hx y hy
    have hx1 := lasta x hx
    have hy1 := headb y hy
    constructor
    · calc x.1 < mid := hx1.2
        _ = y.1 := hy1.symm
    · rw [hy1]; linarith [hx1.1]
  · intro p hp
    cases a with
    | nil =>
      have hlm := nila rfl
      rw [List.nil_append] at hp
      rw [hlm]
      exact headb p hp
    | cons q t =>
      rw [List.cons_append, List.head?_cons] at hp
      simp only [Option.mem_def, Option.some.injEq] at hp
      exact hp ▸ heada q (by simp)
  · intro p hp
    cases b with
    | nil =>
      have hmh := nilb rfl
      rw [List.append_nil] at hp
      have := lasta p hp
      rw [hmh] at this
      exact this
    | cons q t =>
      rw [List.getLast?_append_of_ne_nil a (by simp)] at hp
      exact lastb p hp
  · intro p hp
    rcases List.mem_append.mp hp with h | h
    · have := mema p h
      exact ⟨this.1, lt_of_lt_of_le this.2 h2⟩
    · have := memb p h
      exact ⟨le_trans h1 this.1, this.2⟩
  · intro hnil
    rcases List.append_eq_nil.mp hnil with ⟨hA, hB⟩
    rw [nila hA]
    exact nilb hB


theorem segPoints_ne_nil {s d : ℚ} {f : ℕ → ℚ} (hd : 0 < d) : segPoints s d f ≠ [] := by
  intro h
  have hlen := segPoints_length s d f
  rw [h] at hlen
  exact absurd hlen.symm (Nat.pos_iff_ne_zero.mp (Nat.ceil_pos.mpr hd))

theorem segPoints_getLast {s d : ℚ} {f : ℕ → ℚ} (hd : 0 < d) :
    (segPoints s d f).getLast?.map Prod.fst = some (s + ((⌈d⌉₊ : ℚ) - 1)) := by
  obtain ⟨c, hc⟩ :=
    Nat.exists_eq_succ_of_ne_zero (Nat.pos_iff_ne_zero.mp (Nat.ceil_pos.mpr hd))
  rw [segPoints, hc, List.range_succ, List.map_append, List.map_cons, List.map_nil,
    List.getLast?_concat, Option.map_some']
  simp only [Option.some.injEq, Nat.succ_eq_add_one]
  push_cast
  ring

theorem segPoints_head {s d : ℚ} {f : ℕ → ℚ} (hd : 0 < d) :
    (segPoints s d f).head? = some (s, f 0) := by
  obtain ⟨c, hc⟩ :=
    Nat.exists_eq_succ_of_ne_zero (Nat.pos_iff_ne_zero.mp (Nat.ceil_pos.mpr hd))
  rw [segPoints, hc, List.range_succ_eq_map]
  simp

theorem goodRun_genNormalBeat (sinpi : ℚ → ℚ) (x0 pps : ℚ) (o : BeatOptions)
    (hpps : 0 < pps) (hq : 0 ≤ o.qrs.getD (8 / 100)) :
    GoodRun (genNormalBeat sinpi x0 pps o) x0 (x0 + beatSpan pps o) := by
  have hpD : 0 < pDur pps := mul_pos (by norm_num) hpps
  have hprS : 0 ≤ prSegDur pps o := mul_nonneg (le_max_left 0 _) hpps.le
  have hqD : 0 ≤ qrsDur pps o := mul_nonneg hq hpps.le
  have hstS : 0 < stSegDur pps := mul_pos (by norm_num) hpps
  have htD : 0 < tDur pps := mul_pos (by norm_num) hpps
  have hrD : 0 < retDur pps := mul_pos (by norm_num) hpps
  have e1 : x0 + beatSpan pps o =
      x0 + pDur pps + prSegDur pps o + qrsDur pps o + stSegDur pps + tDur pps +
        retDur pps := by
    rw [beatSpan]; ring
  rw [e1]
  simp only [genNormalBeat]
  refine goodRun_append ?_ (goodRun_segPoints _ _ _ hrD.le) (by linarith) (by linarith)
  refine goodRun_append ?_ (goodRun_segPoints _ _ _ htD.le) (by linarith) (by linarith)
  refine goodRun_append ?_ (goodRun_segPoints _ _ _ hstS.le) (by linarith) (by linarith)
  refine goodRun_append ?_ (goodRun_segPoints _ _ _ hqD) (by linarith) (by linarith)
  exact goodRun_append (goodRun_segPoints _ _ _ hpD.le)
    (goodRun_segPoints _ _ _ hprS) (by linarith) (by linarith)

theorem genNormalBeat_fst_bound {sinpi : ℚ → ℚ} {x0 pps : ℚ} {o : BeatOptions}
    (hpps : 0 < pps) (hq : 0 ≤ o.qrs.getD (8 / 100)) {p : Point}
    (hp : p ∈ genNormalBeat sinpi x0 pps o) : x0 ≤ p.1 ∧ p.1 < x0 + beatSpan pps o :=
  (goodRun_genNormalBeat sinpi x0 pps o hpps hq).2.2.2.1 p hp

theorem genNormalBeat_head {sinpi : ℚ → ℚ} {x0 pps : ℚ} {o : BeatOptions}
    (hpps : 0 < pps) :
    (genNormalBeat sinpi x0 pps o).head? =
      some (x0, 90 - sinpi 0 * (o.amp.getD 22 * (25 / 100))) := by
  have hpD : 0 < pDur pps := mul_pos (by norm_num) hpps
  simp only [genNormalBeat]
  rw [List.head?_append, List.head?_append, List.head?_append, List.head?_append,
    List.head?_append, segPoints_head hpD]
  simp [zero_div]

theorem genNormalBeat_head_fst {sinpi : ℚ → ℚ} {x0 pps : ℚ} {o : BeatOptions}
    (hpps : 0 < pps) :
    (genNormalBeat sinpi x0 pps o).head?.map Prod.fst = some x0 := by
  rw [genNormalBeat_head hpps]
  rfl

theorem genNormalBeat_getLast_fst {sinpi : ℚ → ℚ} {x0 pps : ℚ} {o : BeatOptions}
    (hpps : 0 < pps) :
    (genNormalBeat sinpi x0 pps o).getLast?.map Prod.fst =
      some (x0 + pDur pps + prSegDur pps o + qrsDur pps o + stSegDur pps + tDur pps +
        ((⌈retDur pps⌉₊ : ℚ) - 1)) := by
  have hrD : 0 < retDur pps := mul_pos (by norm_num) hpps
  simp only [genNormalBeat]
  rw [List.getLast?_append_of_ne_nil _ (segPoints_ne_nil hrD)]
  exact segPoints_getLast hrD

theorem genNormalBeat_length (sinpi : ℚ → ℚ) (x0 pps : ℚ) (o : BeatOptions) :
    (genNormalBeat sinpi x0 pps o).length =
      ⌈pDur pps⌉₊ + ⌈prSegDur pps o⌉₊ + ⌈qrsDur pps o⌉₊ + ⌈stSegDur pps⌉₊ +
        ⌈tDur pps⌉₊ + ⌈retDur pps⌉₊ := by
  simp only [genNormalBeat, List.length_append, segPoints_length]

theorem genNormalBeat_mem_qrs {sinpi : ℚ → ℚ} {x0 pps : ℚ} {o : BeatOptions} {i : ℕ}
    (hi : i < ⌈qrsDur pps o⌉₊) :
    (x0 + pDur pps + prSegDur pps o + (i : ℚ),
      90 - qrsShape ((i : ℚ) / qrsDur pps o) * o.amp.getD 22) ∈
      genNormalBeat sinpi x0 pps o := by
  simp only [genNormalBeat]
  apply List.mem_append_left
  apply List.mem_append_left
  apply List.mem_append_left
  apply List.mem_append_right
  exact mem_segPoints.mpr ⟨i, hi, rfl⟩

theorem genNormalBeat_mem_st {sinpi : ℚ → ℚ} {x0 pps : ℚ} {o : BeatOptions} {i : ℕ}
    (hi : i < ⌈stSegDur pps⌉₊) :
    (x0 + pDur pps + prSegDur pps o + qrsDur pps o + (i : ℚ),
      90 - o.stElevation.getD 0) ∈ genNormalBeat sinpi x0 pps o := by
  simp only [genNormalBeat]
  apply List.mem_append_left
  apply List.mem_append_left
  apply List.mem_append_right
  exact mem_segPoints.mpr ⟨i, hi, rfl⟩

theorem genNormalBeat_mem_ret {sinpi : ℚ → ℚ} {x0 pps : ℚ} {o : BeatOptions} {i : ℕ}
    (hi : i < ⌈retDur pps⌉₊) :
    (x0 + pDur pps + prSegDur pps o + qrsDur pps o + stSegDur pps + tDur pps + (i : ℚ),
      (90 : ℚ)) ∈ genNormalBeat sinpi x0 pps o := by
  simp only [genNormalBeat]
  apply List.mem_append_right
  exact mem_segPoints.mpr ⟨i, hi, rfl⟩

/-- Every sample's amplitude comes from one of the six segment profiles. -/
theorem genNormalBeat_snd_cases {sinpi : ℚ → ℚ} {x0 pps : ℚ} {o : BeatOptions}
    {p : Point} (hp : p ∈ genNormalBeat sinpi x0 pps o) :
    (∃ i : ℕ, p.2 = 90 - sinpi ((i : ℚ) / pDur pps) * (o.amp.getD 22 * (25 / 100))) ∨
      p.2 = 90 ∨
      (∃ i : ℕ, p.2 = 90 - qrsShape ((i : ℚ) / qrsDur pps o) * o.amp.getD 22) ∨
      p.2 = 90 - o.stElevation.getD 0 ∨
      (∃ i : ℕ,
        p.2 = 90 - sinpi ((i : ℚ) / tDur pps) * (o.amp.getD 22 * (4 / 10)) *
          o.tPolarity.getD 1) := by
  simp only [genNormalBeat, List.mem_append] at hp
  rcases hp with ((((hA | hB) | hC) | hD) | hE) | hF
  · obtain ⟨i, _, rfl⟩ := mem_segPoints.mp hA
    exact Or.inl ⟨i, rfl⟩
  · obtain ⟨i, _, rfl⟩ := mem_segPoints.mp hB
    exact Or.inr (Or.inl rfl)
  · obtain ⟨i, _, rfl⟩ := mem_segPoints.mp hC
    exact Or.inr (Or.inr (Or.inl ⟨i, rfl⟩))
  · obtain ⟨i, _, rfl⟩ := mem_segPoints.mp hD
    exact Or.inr (Or.inr (Or.inr (Or.inl rfl)))
  · obtain ⟨i, _, rfl⟩ := mem_segPoints.mp hE
    exact Or.inr (Or.inr (Or.inr (Or.inr ⟨i, rfl⟩)))
  · obtain ⟨i, _, rfl⟩ := mem_segPoints.mp hF
    exact Or.inr (Or.inl rfl)

/-! ### Lemmas about the in-place update embedding -/

theorem setY_map_fst (l : List Point) (i : ℕ) (y : ℚ) :
    (setY l i y).map Prod.fst = l.map Prod.fst := by
  induction l generalizing i with
  | nil => rfl
  | cons p t ih =>
    cases i with
    | zero => simp [setY]
    | succ n => simp [setY, ih]

theorem setY_length (l : List Point) (i : ℕ) (y : ℚ) :
    (setY l i y).length = l.length := by
  have h := congrArg List.length (setY_map_fst l i y)
  simpa using h

theorem setY_getElem_ne (l : List Point) (i j : ℕ) (y : ℚ) (h : j ≠ i) :
    (setY l i y)[j]? = l[j]? := by
  induction l generalizing i j with
  | nil => rfl
  | cons p t ih =>
    cases i with
    | zero =>
      cases j with
      | zero => exact absurd rfl h
      | succ m => simp [setY]
    | succ n =>
      cases j with
      | zero => simp [setY]
      | succ m =>
        simp only [setY, List.getElem?_cons_succ]
        exact ih n m (by omega)

theorem applyWrites_map_fst (ws : List (ℕ × ℚ)) (l : List Point) :
    (applyWrites l ws).map Prod.fst = l.map Prod.fst := by
  induction ws generalizing l with
  | nil => rfl
  | cons w t ih =>
    simp only [applyWrites, List.foldl_cons]
    rw [show (List.foldl (fun acc x => setY acc x.1 x.2) (setY l w.1 w.2) t) =
        applyWrites (setY l w.1 w.2) t from rfl, ih, setY_map_fst]

theorem applyWrites_length (ws : List (ℕ × ℚ)) (l : List Point) :
    (applyWrites l ws).length = l.length := by
  have h := congrArg List.length (applyWrites_map_fst ws l)
  simpa using h

theorem applyWrites_getElem_ne (ws : List (ℕ × ℚ)) (l : List Point) (j : ℕ)
    (h : ∀ w ∈ ws, w.1 ≠ j) : (applyWrites l ws)[j]? = l[j]? := by
  induction ws generalizing l with
  | nil => rfl
  | cons w t ih =>
    simp only [applyWrites, List.foldl_cons]
    rw [show (List.foldl (fun acc x => setY acc x.1 x.2) (setY l w.1 w.2) t) =
        applyWrites (setY l w.1 w.2) t from rfl]
    rw [ih (setY l w.1 w.2) (fun v hv => h v (List.mem_cons_of_mem w hv))]
    exact setY_getElem_ne l w.1 j w.2 (fun he => h w (List.mem_cons_self w t) he.symm)

/-! ### Numeric evaluation of the module constants and per-rhythm parameters -/

theorem PX_PER_SEC_eq : PX_PER_SEC = 125 := by norm_num [PX_PER_SEC, SMALL_BOX]

theorem STRIP_WIDTH_eq : STRIP_WIDTH = 750 := by
  norm_num [STRIP_WIDTH, PX_PER_SEC, SMALL_BOX, STRIP_SECONDS]

theorem tileCount_eval {step : ℚ} {n : ℕ} (hstep : 0 < step) (hn : n ≠ 0)
    (h1 : ((n - 1 : ℕ) : ℚ) < 730 / step) (h2 : 730 / step ≤ (n : ℚ)) :
    tileCount step = n := by
  rw [tileCount, if_pos hstep, STRIP_WIDTH_eq]
  norm_num
  rw [Nat.ceil_eq_iff hn]
  exact ⟨h1, h2⟩

theorem tileCount_sinus : tileCount (60 / 75 * PX_PER_SEC) = 8 := by
  rw [PX_PER_SEC_eq]
  exact tileCount_eval (by norm_num) (by norm_num) (by norm_num) (by norm_num)

theorem tileCount_brady : tileCount (60 / 48 * PX_PER_SEC) = 5 := by
  rw [PX_PER_SEC_eq]
  exact tileCount_eval (by norm_num) (by norm_num) (by norm_num) (by norm_num)

theorem tileCount_tachy : tileCount (60 / 120 * PX_PER_SEC) = 12 := by
  rw [PX_PER_SEC_eq]
  exact tileCount_eval (by norm_num) (by norm_num) (by norm_num) (by norm_num)

theorem tileCount_psvt : tileCount (4 / 10 * PX_PER_SEC) = 15 := by
  rw [PX_PER_SEC_eq]
  exact tileCount_eval (by norm_num) (by norm_num) (by norm_num) (by norm_num)

theorem tileCount_junctional : tileCount (1 * PX_PER_SEC) = 6 := by
  rw [PX_PER_SEC_eq]
  exact tileCount_eval (by norm_num) (by norm_num) (by norm_num) (by norm_num)

theorem tileCount_slow : tileCount (8 / 10 * PX_PER_SEC) = 8 := by
  rw [PX_PER_SEC_eq]
  exact tileCount_eval (by norm_num) (by norm_num) (by norm_num) (by norm_num)

theorem beatSpan_default : beatSpan PX_PER_SEC {} = 65 := by
  norm_num [beatSpan, pDur, prSegDur, qrsDur, stSegDur, tDur, retDur, PX_PER_SEC_eq,
    Option.getD, max_def]

theorem beatSpan_pac : beatSpan PX_PER_SEC pacOpts = 125 / 2 := by
  norm_num [beatSpan, pDur, prSegDur, qrsDur, stSegDur, tDur, retDur, PX_PER_SEC_eq,
    pacOpts, Option.getD, max_def]

theorem beatSpan_psvt : beatSpan (PX_PER_SEC * (7 / 10)) psvtOpts = 77 / 2 := by
  norm_num [beatSpan, pDur, prSegDur, qrsDur, stSegDur, tDur, retDur, PX_PER_SEC_eq,
    psvtOpts, Option.getD, max_def]

theorem beatSpan_junctional : beatSpan PX_PER_SEC junctionalOpts = 55 := by
  norm_num [beatSpan, pDur, prSegDur, qrsDur, stSegDur, tDur, retDur, PX_PER_SEC_eq,
    junctionalOpts, Option.getD, max_def]

theorem beatSpan_firstdeg : beatSpan PX_PER_SEC firstdegOpts = 155 / 2 := by
  norm_num [beatSpan, pDur, prSegDur, qrsDur, stSegDur, tDur, retDur, PX_PER_SEC_eq,
    firstdegOpts, Option.getD, max_def]

theorem beatSpan_stemi : beatSpan PX_PER_SEC stemiOpts = 65 := by
  norm_num [beatSpan, pDur, prSegDur, qrsDur, stSegDur, tDur, retDur, PX_PER_SEC_eq,
    stemiOpts, Option.getD, max_def]

theorem beatSpan_nstemi : beatSpan PX_PER_SEC nstemiOpts = 65 := by
  norm_num [beatSpan, pDur, prSegDur, qrsDur, stSegDur, tDur, retDur, PX_PER_SEC_eq,
    nstemiOpts, Option.getD, max_def]

/-! ### Extent of tiled strips -/

theorem tiledStrip_fst_bound {sinpi : ℚ → ℚ} {step pps : ℚ} {o : BeatOptions}
    (hstep : 0 < step) (hpps : 0 < pps) (hq : 0 ≤ o.qrs.getD (8 / 100)) {p : Point}
    (hp : p ∈ tiledStrip sinpi step pps o) :
    10 ≤ p.1 ∧ p.1 < 10 + ((tileCount step : ℚ) - 1) * step + beatSpan pps o := by
  obtain ⟨n, hn, hpmem⟩ := List.mem_flatMap.mp hp
  rw [List.mem_range] at hn
  have hb := genNormalBeat_fst_bound hpps hq hpmem
  have hcast : (n : ℚ) ≤ (tileCount step : ℚ) - 1 := by
    have : (n : ℚ) + 1 ≤ (tileCount step : ℚ) := by exact_mod_cast hn
    linarith
  have hmul : (n : ℚ) * step ≤ ((tileCount step : ℚ) - 1) * step :=
    mul_le_mul_of_nonneg_right hcast hstep.le
  have hnn : 0 ≤ (n : ℚ) * step := mul_nonneg (Nat.cast_nonneg n) hstep.le
  exact ⟨by linarith [hb.1], by linarith [hb.2]⟩

theorem genAflutter_map_fst (width : ℕ) (amp rate : ℚ) :
    (genAflutter width amp rate).map Prod.fst =
      (List.range width).map (fun (i : ℕ) => (i : ℚ)) := by
  rw [genAflutter, applyWrites_map_fst]
  simp only [flutterBase, List.map_map]
  apply List.map_congr_left
  intro i _
  rfl

theorem afibLoop_map_fst (u : ℕ → ℚ) (width fuel d : ℕ) (cursor : ℚ)
    (pts : List Point) :
    (afibLoop u width fuel d cursor pts).map Prod.fst = pts.map Prod.fst := by
  induction fuel generalizing d cursor pts with
  | zero => rfl
  | succ m ih =>
    simp only [afibLoop]
    split
    · rw [ih, applyWrites_map_fst]
    · rfl

theorem genAfib_map_fst (u : ℕ → ℚ) (width : ℕ) :
    (genAfib u width).map Prod.fst = (List.range width).map (fun (i : ℕ) => (i : ℚ)) := by
  rw [genAfib, afibLoop_map_fst]
  simp [afibBase]

/-- Packaged extent bound for one tiled branch. -/
theorem tiledStrip_lt {sinpi : ℚ → ℚ} {step pps : ℚ} {o : BeatOptions} {N : ℕ}
    {S B : ℚ} (hstep : 0 < step) (hpps : 0 < pps) (hq : 0 ≤ o.qrs.getD (8 / 100))
    (hN : tileCount step = N) (hS : beatSpan pps o = S)
    (hB : 10 + ((N : ℚ) - 1) * step + S ≤ B) {p : Point}
    (hp : p ∈ tiledStrip sinpi step pps o) : p.1 < B := by
  have hb := (tiledStrip_fst_bound hstep hpps hq hp).2
  rw [hN, hS] at hb
  linarith

/-- A concrete return-segment sample of the last sinus beat of `buildStrip "sinus"`:
the samples `(770 + i, 90)` for `i < 5`. -/
theorem sinusStrip_ret_sample (sinpi : ℚ → ℚ) (u : ℕ → ℚ) (i : ℕ) (hi : i < 5) :
    ((770 : ℚ) + (i : ℚ), (90 : ℚ)) ∈ buildStrip sinpi u "sinus" := by
  have hbs : buildStrip sinpi u "sinus" = genSinusStrip sinpi 75 {} := by
    simp [buildStrip]
  rw [hbs, genSinusStrip, tiledStrip]
  apply List.mem_flatMap.mpr
  refine ⟨7, ?_, ?_⟩
  · rw [List.mem_range, tileCount_sinus]
    norm_num
  · have h4 : i < ⌈retDur PX_PER_SEC⌉₊ := by
      rw [show retDur PX_PER_SEC = 5 by norm_num [retDur, PX_PER_SEC_eq]]
      rw [show ⌈(5 : ℚ)⌉₊ = 5 by norm_num]
      exact hi
    have hm := @genNormalBeat_mem_ret sinpi
      (10 + ((7 : ℕ) : ℚ) * (60 / 75 * PX_PER_SEC)) PX_PER_SEC {} i h4
    have hx : (10 + ((7 : ℕ) : ℚ) * (60 / 75 * PX_PER_SEC)) + pDur PX_PER_SEC +
        prSegDur PX_PER_SEC {} + qrsDur PX_PER_SEC {} + stSegDur PX_PER_SEC +
        tDur PX_PER_SEC = 770 := by
      norm_num [pDur, prSegDur, qrsDur, stSegDur, tDur, PX_PER_SEC_eq, Option.getD,
        max_def]
    rw [hx] at hm
    exact hm

set_option maxHeartbeats 1000000 in
/-- C1, corrected. The tiling loops do stop as soon as the next beat's start position
would reach `STRIP_WIDTH - 10`, but the samples of the final beat overrun the canonical
strip width: the claimed bound `p.1 <= STRIP_WIDTH = 750` is false (see the
counterexample), and the provable extent bound over every rhythm identifier is
`p.1 < 790`. -/
theorem claim1_strip_extent (sinpi : ℚ → ℚ) (u : ℕ → ℚ) (kind : String) :
    ∀ p ∈ buildStrip sinpi u kind, p.1 < 790 := by
  intro p hp
  rw [buildStrip] at hp
  by_cases h1 : kind = "sinus"
  · rw [if_pos h1] at hp
    exact tiledStrip_lt (by norm_num [PX_PER_SEC_eq]) (by norm_num [PX_PER_SEC_eq])
      (by norm_num) tileCount_sinus beatSpan_default (by norm_num [PX_PER_SEC_eq]) hp
  rw [if_neg h1] at hp
  by_cases h2 : kind = "sinus_brady"
  · rw [if_pos h2] at hp
    exact tiledStrip_lt (by norm_num [PX_PER_SEC_eq]) (by norm_num [PX_PER_SEC_eq])
      (by norm_num) tileCount_brady beatSpan_default (by norm_num [PX_PER_SEC_eq]) hp
  rw [if_neg h2] at hp
  by_cases h3 : kind = "sinus_tachy"
  · rw [if_pos h3] at hp
    exact tiledStrip_lt (by norm_num [PX_PER_SEC_eq]) (by norm_num [PX_PER_SEC_eq])
      (by norm_num) tileCount_tachy beatSpan_default (by norm_num [PX_PER_SEC_eq]) hp
  rw [if_neg h3] at hp
  by_cases h4 : kind = "aflutter"
  · rw [if_pos h4] at hp
    have h := List.mem_map_of_mem Prod.fst hp
    rw [genAflutter_map_fst] at h
    obtain ⟨i, hi, hqe⟩ := List.mem_map.mp h
    rw [List.mem_range] at hi
    have hiw : i < 750 := by simpa [stripWidthN] using hi
    have hic : (i : ℚ) < 750 := by exact_mod_cast hiw
    rw [← hqe]
    linarith
  rw [if_neg h4] at hp
  by_cases h5 : kind = "afib"
  · rw [if_pos h5] at hp
    have h := List.mem_map_of_mem Prod.fst hp
    rw [genAfib_map_fst] at h
    obtain ⟨i, hi, hqe⟩ := List.mem_map.mp h
    rw [List.mem_range] at hi
    have hiw : i < 750 := by simpa [stripWidthN] using hi
    have hic : (i : ℚ) < 750 := by exact_mod_cast hiw
    rw [← hqe]
    linarith
  rw [if_neg h5] at hp
  by_cases h6 : kind = "sinus_pac"
  · rw [if_pos h6] at hp
    rw [pacStrip] at hp
    obtain ⟨n, hn, hpm⟩ := List.mem_flatMap.mp hp
    rw [List.mem_range, tileCount_slow] at hn
    simp only [] at hpm
    have hb := genNormalBeat_fst_bound
      (by norm_num [PX_PER_SEC_eq] : (0 : ℚ) < PX_PER_SEC)
      (by norm_num [pacOpts] : (0 : ℚ) ≤ pacOpts.qrs.getD (8 / 100)) hpm
    rw [beatSpan_pac] at hb
    have hoff : (if n = 2 then
        max (-(10 + (n : ℚ) * (8 / 10 * PX_PER_SEC)) + 2) (-(3 / 10) * PX_PER_SEC)
        else 0) ≤ 0 := by
      split_ifs
      · apply max_le
        · have : (0 : ℚ) ≤ (n : ℚ) * (8 / 10 * PX_PER_SEC) :=
            mul_nonneg (Nat.cast_nonneg n) (by norm_num [PX_PER_SEC_eq])
          linarith
        · norm_num [PX_PER_SEC_eq]
      · exact le_refl 0
    have hn7 : (n : ℚ) ≤ 7 := by exact_mod_cast Nat.lt_succ_iff.mp hn
    rw [PX_PER_SEC_eq] at hb hoff
    have h100 : (n : ℚ) * (8 / 10 * 125) ≤ 7 * (8 / 10 * 125) :=
      mul_le_mul_of_nonneg_right hn7 (by norm_num)
    linarith [hb.2]
  rw [if_neg h6] at hp
  by_cases h7 : kind = "psvt"
  · rw [if_pos h7] at hp
    exact tiledStrip_lt (by norm_num [PX_PER_SEC_eq]) (by norm_num [PX_PER_SEC_eq])
      (by norm_num [psvtOpts]) tileCount_psvt beatSpan_psvt
      (by norm_num [PX_PER_SEC_eq]) hp
  rw [if_neg h7] at hp
  by_cases h8 : kind = "junctional"
  · rw [if_pos h8] at hp
    exact tiledStrip_lt (by norm_num [PX_PER_SEC_eq]) (by norm_num [PX_PER_SEC_eq])
      (by norm_num [junctionalOpts]) tileCount_junctional beatSpan_junctional
      (by norm_num [PX_PER_SEC_eq]) hp
  rw [if_neg h8] at hp
  by_cases h9 : kind = "firstdeg"
  · rw [if_pos h9] at hp
    exact tiledStrip_lt (by norm_num [PX_PER_SEC_eq]) (by norm_num [PX_PER_SEC_eq])
      (by norm_num [firstdegOpts]) tileCount_slow beatSpan_firstdeg
      (by norm_num [PX_PER_SEC_eq]) hp
  rw [if_neg h9] at hp
  by_cases h10 : kind = "stemi_inferior"
  · rw [if_pos h10] at hp
    exact tiledStrip_lt (by norm_num [PX_PER_SEC_eq]) (by norm_num [PX_PER_SEC_eq])
      (by norm_num [stemiOpts]) tileCount_slow beatSpan_stemi
      (by norm_num [PX_PER_SEC_eq]) hp
  rw [if_neg h10] at hp
  by_cases h11 : kind = "nstemi"
  · rw [if_pos h11] at hp
    exact tiledStrip_lt (by norm_num [PX_PER_SEC_eq]) (by norm_num [PX_PER_SEC_eq])
      (by norm_num [nstemiOpts]) tileCount_slow beatSpan_nstemi
      (by norm_num [PX_PER_SEC_eq]) hp
  rw [if_neg h11] at hp
  exact tiledStrip_lt (by norm_num [PX_PER_SEC_eq]) (by norm_num [PX_PER_SEC_eq])
    (by norm_num) tileCount_sinus beatSpan_default (by norm_num [PX_PER_SEC_eq]) hp

/-- C1 counterexample: `buildStrip("sinus")` contains the sample `(774, 90)`, whose
time-position exceeds `STRIP_WIDTH = 750`, refuting the claimed bound. -/
theorem claim1_counterexample :
    ((774 : ℚ), (90 : ℚ)) ∈ buildStrip zeroSin zeroDraws "sinus" ∧
      ¬((774 : ℚ) ≤ STRIP_WIDTH) := by
  constructor
  · have hm := sinusStrip_ret_sample zeroSin zeroDraws 4 (by norm_num)
    have he : ((770 : ℚ) + ((4 : ℕ) : ℚ)) = 774 := by norm_num
    rw [he] at hm
    exact hm
  · rw [STRIP_WIDTH_eq]
    norm_num

/-- C1 witness: the bound theorem applied at the concrete sample `(770, 90)` of the
sinus strip. -/
theorem claim1_strip_extent_witness :
    ((770 : ℚ), (90 : ℚ)) ∈ buildStrip zeroSin zeroDraws "sinus" ∧
      (((770 : ℚ), (90 : ℚ)) : Point).1 < 790 := by
  have hm : ((770 : ℚ), (90 : ℚ)) ∈ buildStrip zeroSin zeroDraws "sinus" := by
    have h0 := sinusStrip_ret_sample zeroSin zeroDraws 0 (by norm_num)
    have he : ((770 : ℚ) + ((0 : ℕ) : ℚ)) = 770 := by norm_num
    rw [he] at h0
    exact h0
  exact ⟨hm, claim1_strip_extent zeroSin zeroDraws "sinus" _ hm⟩

/-- C2, corrected. `cropPoints` retains exactly the samples with time-position in
`[start, stop]` and translates each by `-start`; retained time-positions lie in
`[0, stop - start]`. The re-based first sample is `q.1 - start` for the first retained
`q`, which is 0 only when a sample sits exactly at `start` (see the counterexample). -/
theorem claim2_crop (pts : List Point) (s e : ℚ) :
    (∀ q ∈ pts, s ≤ q.1 → q.1 ≤ e → (q.1 - s, q.2) ∈ cropPoints pts s e) ∧
      (∀ p ∈ cropPoints pts s e,
        ∃ q, q ∈ pts ∧ s ≤ q.1 ∧ q.1 ≤ e ∧ p = (q.1 - s, q.2)) ∧
      (∀ p ∈ cropPoints pts s e, 0 ≤ p.1 ∧ p.1 ≤ e - s) := by
  refine ⟨?_, ?_, ?_⟩
  · intro q hq h1 h2
    rw [cropPoints]
    exact List.mem_map_of_mem _ (List.mem_filter.mpr ⟨hq, by simp [h1, h2]⟩)
  · intro p hp
    rw [cropPoints] at hp
    obtain ⟨q, hq, hpe⟩ := List.mem_map.mp hp
    have hf := List.mem_filter.mp hq
    have hcond := hf.2
    simp only [Bool.and_eq_true, decide_eq_true_eq] at hcond
    exact ⟨q, hf.1, hcond.1, hcond.2, hpe.symm⟩
  · intro p hp
    rw [cropPoints] at hp
    obtain ⟨q, hq, hpe⟩ := List.mem_map.mp hp
    have hcond := (List.mem_filter.mp hq).2
    simp only [Bool.and_eq_true, decide_eq_true_eq] at hcond
    rw [← hpe]
    constructor
    · simp only []
      linarith [hcond.1]
    · simp only []
      linarith [hcond.2]

/-- C2 counterexample: `cropPoints [[5, 1]] 4 6 = [[1, 1]]` — the first retained
sample is re-based to `5 - 4 = 1`, not to 0 as the claim states. -/
theorem claim2_counterexample :
    cropPoints [((5 : ℚ), (1 : ℚ))] 4 6 = [((1 : ℚ), (1 : ℚ))] ∧ (1 : ℚ) ≠ 0 := by
  constructor
  · rw [cropPoints]
    norm_num [List.filter]
  · norm_num

/-- C2 witness: the crop theorem applied to the singleton list `[[5, 1]]` with
window `[4, 6]`. -/
theorem claim2_crop_witness :
    ((5 : ℚ) - 4, (1 : ℚ)) ∈ cropPoints [((5 : ℚ), (1 : ℚ))] 4 6 ∧
      0 ≤ (5 : ℚ) - 4 ∧ (5 : ℚ) - 4 ≤ 6 - 4 := by
  have h := claim2_crop [((5 : ℚ), (1 : ℚ))] 4 6
  have hmem := h.1 (5, 1) (by simp) (by norm_num) (by norm_num)
  have hb := h.2.2 _ hmem
  exact ⟨hmem, hb.1, hb.2⟩

/-- C3, corrected. For positive sampling density and nonnegative QRS duration, the
beat starts exactly at `x0`, consecutive time-positions strictly increase by at most
one pixel (so the five segments are contiguous), and the last time-position is
`x0 + (sum of the first five segment durations) + ⌈0.04 * density⌉ - 1` — one sample
unit short of `x0 + (total duration) * density` claimed by the spec (samples cover the
half-open span; see the counterexample). -/
theorem claim3_beat_shape (sinpi : ℚ → ℚ) (x0 pps : ℚ) (o : BeatOptions)
    (hpps : 0 < pps) (hq : 0 ≤ o.qrs.getD (8 / 100)) :
    (genNormalBeat sinpi x0 pps o).head?.map Prod.fst = some x0 ∧
      List.Chain' stepR (genNormalBeat sinpi x0 pps o) ∧
      (genNormalBeat sinpi x0 pps o).getLast?.map Prod.fst =
        some (x0 + pDur pps + prSegDur pps o + qrsDur pps o + stSegDur pps + tDur pps +
          ((⌈retDur pps⌉₊ : ℚ) - 1)) :=
  ⟨genNormalBeat_head_fst hpps, (goodRun_genNormalBeat sinpi x0 pps o hpps hq).1,
    genNormalBeat_getLast_fst hpps⟩

/-- C3 counterexample: at density 125 and default options the beat's samples run from
time-position 0 to 64, so the spanned extent is 64, not the claimed
`0.52 * 125 = 65` (the sum of segment durations times density). -/
theorem claim3_counterexample :
    (genNormalBeat zeroSin 0 125 {}).head?.map Prod.fst = some 0 ∧
      (genNormalBeat zeroSin 0 125 {}).getLast?.map Prod.fst = some 64 ∧
      (64 : ℚ) - 0 ≠ beatSpan 125 {} := by
  refine ⟨genNormalBeat_head_fst (by norm_num), ?_, ?_⟩
  · rw [genNormalBeat_getLast_fst (by norm_num)]
    norm_num [pDur, prSegDur, qrsDur, stSegDur, tDur, retDur, Option.getD, max_def]
  · have hspan : beatSpan 125 {} = 65 := by
      norm_num [beatSpan, pDur, prSegDur, qrsDur, stSegDur, tDur, retDur, Option.getD,
        max_def]
    rw [hspan]
    norm_num

/-- C3 witness: the beat-shape theorem applied at density 125 and default options. -/
theorem claim3_beat_shape_witness :
    (genNormalBeat zeroSin 0 125 {}).head?.map Prod.fst = some 0 ∧
      List.Chain' stepR (genNormalBeat zeroSin 0 125 {}) ∧
      (genNormalBeat zeroSin 0 125 {}).getLast?.map Prod.fst =
        some (0 + pDur 125 + prSegDur 125 {} + qrsDur 125 {} + stSegDur 125 + tDur 125 +
          ((⌈retDur 125⌉₊ : ℚ) - 1)) :=
  claim3_beat_shape zeroSin 0 125 {} (by norm_num) (by norm_num)

/-- C5, corrected. In the `firstdeg` strip every beat uses `pr = 0.26`, so the PR
interval measured from P-wave onset to QRS onset is `0.26 s >= 0.20 s`; but the PR
segment measured from P-wave end to QRS start is only `0.18 s < 0.20 s` (see the
counterexample): the claim's measurement attribution is wrong, its threshold holds for
the PR interval. -/
theorem claim5_firstdeg_pr (sinpi : ℚ → ℚ) (u : ℕ → ℚ) :
    buildStrip sinpi u "firstdeg" =
      (List.range 8).flatMap (fun (n : ℕ) =>
        genNormalBeat sinpi (10 + (n : ℚ) * (8 / 10 * PX_PER_SEC)) PX_PER_SEC
          firstdegOpts) ∧
      pDur PX_PER_SEC + prSegDur PX_PER_SEC firstdegOpts = 26 / 100 * PX_PER_SEC ∧
      20 / 100 * PX_PER_SEC ≤ 26 / 100 * PX_PER_SEC := by
  refine ⟨?_, ?_, ?_⟩
  · have hb : buildStrip sinpi u "firstdeg" =
        tiledStrip sinpi (8 / 10 * PX_PER_SEC) PX_PER_SEC firstdegOpts := by
      simp [buildStrip]
    rw [hb, tiledStrip, tileCount_slow]
  · norm_num [pDur, prSegDur, firstdegOpts, Option.getD, max_def, PX_PER_SEC_eq]
  · norm_num [PX_PER_SEC_eq]

/-- C5 counterexample: the P-wave-end-to-QRS-start segment of a `firstdeg` beat lasts
`prSegment = 22.5` pixels `= 0.18 s`, which is below the claimed `0.20 s` threshold
(`0.20 * 125 = 25` pixels). -/
theorem claim5_counterexample :
    prSegDur PX_PER_SEC firstdegOpts = 45 / 2 ∧
      ¬(20 / 100 * PX_PER_SEC ≤ (45 / 2 : ℚ)) := by
  constructor
  · norm_num [prSegDur, firstdegOpts, Option.getD, max_def, PX_PER_SEC_eq]
  · norm_num [PX_PER_SEC_eq]

/-- C8, confirmed. `genNormalBeat` is total for every options record: omitted fields
take the documented defaults (22, 0.16, 0.08, 0, 1); the output length is determined
for all inputs; a PR at or below the 0.08 s P-wave duration yields an empty PR segment
(`max(0, pr - 0.08)` pixels), and a zero or negative QRS yields an empty QRS segment. -/
theorem claim8_beat_totality (sinpi : ℚ → ℚ) (x0 pps : ℚ) (o : BeatOptions) :
    genNormalBeat sinpi x0 pps {} =
      genNormalBeat sinpi x0 pps
        { amp := some 22, pr := some (16 / 100), qrs := some (8 / 100),
          stElevation := some 0, tPolarity := some 1 } ∧
      (genNormalBeat sinpi x0 pps o).length =
        ⌈pDur pps⌉₊ + ⌈prSegDur pps o⌉₊ + ⌈qrsDur pps o⌉₊ + ⌈stSegDur pps⌉₊ +
          ⌈tDur pps⌉₊ + ⌈retDur pps⌉₊ ∧
      (o.pr.getD (16 / 100) ≤ 8 / 100 → ⌈prSegDur pps o⌉₊ = 0) ∧
      (0 < pps → o.qrs.getD (8 / 100) ≤ 0 → ⌈qrsDur pps o⌉₊ = 0) := by
  refine ⟨rfl, genNormalBeat_length sinpi x0 pps o, ?_, ?_⟩
  · intro h
    have hm : max 0 (o.pr.getD (16 / 100) - 8 / 100) = 0 := max_eq_left (by linarith)
    rw [prSegDur, hm, zero_mul]
    exact Nat.ceil_zero
  · intro hpps hq
    have hnp : qrsDur pps o ≤ 0 := by
      rw [qrsDur]
      exact mul_nonpos_of_nonpos_of_nonneg hq hpps.le
    exact Nat.ceil_eq_zero.mpr hnp

/-- C8 witness: totality theorem applied at density 125 with a degenerate options
record (PR below 0.08 s and a negative QRS duration). -/
theorem claim8_beat_totality_witness :
    ⌈prSegDur 125 ⟨none, some (5 / 100), some (-(1 / 10)), none, none⟩⌉₊ = 0 ∧
      ⌈qrsDur 125 ⟨none, some (5 / 100), some (-(1 / 10)), none, none⟩⌉₊ = 0 := by
  have h := claim8_beat_totality zeroSin 0 125
    ⟨none, some (5 / 100), some (-(1 / 10)), none, none⟩
  exact ⟨h.2.2.1 (by norm_num), h.2.2.2 (by norm_num) (by norm_num)⟩

/-- C9, confirmed. Any identifier other than the eleven recognized ones falls through
every branch of `buildStrip` to the final `genSinusStrip(75)` — the same sequence the
`"sinus"` identifier produces. -/
theorem claim9_fallback (sinpi : ℚ → ℚ) (u : ℕ → ℚ) (kind : String)
    (h : kind ∉ ["sinus", "sinus_brady", "sinus_tachy", "aflutter", "afib",
      "sinus_pac", "psvt", "junctional", "firstdeg", "stemi_inferior", "nstemi"]) :
    buildStrip sinpi u kind = genSinusStrip sinpi 75 {} ∧
      buildStrip sinpi u kind = buildStrip sinpi u "sinus" := by
  simp only [List.mem_cons, List.not_mem_nil, or_false, not_or] at h
  obtain ⟨h1, h2, h3, h4, h5, h6, h7, h8, h9, h10, h11⟩ := h
  have hfall : buildStrip sinpi u kind = genSinusStrip sinpi 75 {} := by
    rw [buildStrip, if_neg h1, if_neg h2, if_neg h3, if_neg h4, if_neg h5, if_neg h6,
      if_neg h7, if_neg h8, if_neg h9, if_neg h10, if_neg h11]
  refine ⟨hfall, ?_⟩
  rw [hfall]
  have hs : buildStrip sinpi u "sinus" = genSinusStrip sinpi 75 {} := by
    simp [buildStrip]
  rw [hs]

/-- C9 witness: the fallback theorem applied to the unrecognized identifier
`"vtach"`. -/
theorem claim9_fallback_witness :
    buildStrip zeroSin zeroDraws "vtach" = genSinusStrip zeroSin 75 {} ∧
      buildStrip zeroSin zeroDraws "vtach" = buildStrip zeroSin zeroDraws "sinus" :=
  claim9_fallback zeroSin zeroDraws "vtach" (by decide)

/-- The QRS-spike sample `i = 2` of sinus beat `n` (time 0.2 into the QRS, profile
value 1.2): the sample `(10 + 100 n + 22, 90 - 1.2 * 22)` of `buildStrip "sinus"`. -/
theorem sinusStrip_qrs_sample (sinpi : ℚ → ℚ) (u : ℕ → ℚ) (n : ℕ) (hn : n < 8) :
    ((10 + (n : ℚ) * (60 / 75 * PX_PER_SEC)) + pDur PX_PER_SEC +
        prSegDur PX_PER_SEC {} + ((2 : ℕ) : ℚ),
      90 - 12 / 10 * 22) ∈ buildStrip sinpi u "sinus" := by
  have hbs : buildStrip sinpi u "sinus" = genSinusStrip sinpi 75 {} := by
    simp [buildStrip]
  rw [hbs, genSinusStrip, tiledStrip]
  apply List.mem_flatMap.mpr
  refine ⟨n, ?_, ?_⟩
  · rw [List.mem_range, tileCount_sinus]
    exact hn
  · have h2 : 2 < ⌈qrsDur PX_PER_SEC {}⌉₊ := by
      rw [show qrsDur PX_PER_SEC {} = 10 from by
        norm_num [qrsDur, Option.getD, PX_PER_SEC_eq]]
      rw [show ⌈(10 : ℚ)⌉₊ = 10 from by norm_num]
      norm_num
    have hm := @genNormalBeat_mem_qrs sinpi
      (10 + (n : ℚ) * (60 / 75 * PX_PER_SEC)) PX_PER_SEC {} 2 h2
    have hy : 90 - qrsShape (((2 : ℕ) : ℚ) / qrsDur PX_PER_SEC {}) *
        (({} : BeatOptions).amp.getD 22) = 90 - 12 / 10 * 22 := by
      rw [show qrsDur PX_PER_SEC {} = 10 from by
        norm_num [qrsDur, Option.getD, PX_PER_SEC_eq]]
      norm_num [qrsShape, Option.getD]
    rw [hy] at hm
    exact hm

/-- C4: in the source, `stElevation = -6` for `stemi_inferior` yields ST-segment
amplitude `90 - (-6) = 96`, which is BELOW the baseline 90 on the inverted-y SVG
canvas — visual ST depression, contradicting the question bank's own "STEMI
(contiguous ST elevation)" label; the offset magnitude 6 is as configured. The first
beat's ST samples are `(40 + i, 96)` for `i < 10`; shown here for all eight beats. -/
theorem claim4_stemi_st_inverted :
    (∀ n : ℕ, n < 8 →
      ((10 + (n : ℚ) * (8 / 10 * PX_PER_SEC)) + pDur PX_PER_SEC +
          prSegDur PX_PER_SEC stemiOpts + qrsDur PX_PER_SEC stemiOpts + ((0 : ℕ) : ℚ),
        90 - stemiOpts.stElevation.getD 0) ∈
        buildStrip zeroSin zeroDraws "stemi_inferior") ∧
      ((40 : ℚ), (96 : ℚ)) ∈ buildStrip zeroSin zeroDraws "stemi_inferior" ∧
      90 - stemiOpts.stElevation.getD 0 = 96 ∧ ¬((96 : ℚ) < 90) ∧
      |(96 : ℚ) - 90| = 6 := by
  have hbs : buildStrip zeroSin zeroDraws "stemi_inferior" =
      tiledStrip zeroSin (8 / 10 * PX_PER_SEC) PX_PER_SEC stemiOpts := by
    simp [buildStrip]
  have hst : ∀ n : ℕ, n < 8 →
      ((10 + (n : ℚ) * (8 / 10 * PX_PER_SEC)) + pDur PX_PER_SEC +
          prSegDur PX_PER_SEC stemiOpts + qrsDur PX_PER_SEC stemiOpts + ((0 : ℕ) : ℚ),
        90 - stemiOpts.stElevation.getD 0) ∈
        buildStrip zeroSin zeroDraws "stemi_inferior" := by
    intro n hn
    rw [hbs, tiledStrip]
    apply List.mem_flatMap.mpr
    refine ⟨n, ?_, ?_⟩
    · rw [List.mem_range, tileCount_slow]
      exact hn
    · have h0 : 0 < ⌈stSegDur PX_PER_SEC⌉₊ := by
        rw [show stSegDur PX_PER_SEC = 10 from by norm_num [stSegDur, PX_PER_SEC_eq]]
        norm_num
      exact @genNormalBeat_mem_st zeroSin
        (10 + (n : ℚ) * (8 / 10 * PX_PER_SEC)) PX_PER_SEC stemiOpts 0 h0
  refine ⟨hst, ?_, ?_, by norm_num, by norm_num⟩
  · have h0 := hst 0 (by norm_num)
    have he : ((10 + ((0 : ℕ) : ℚ) * (8 / 10 * PX_PER_SEC)) + pDur PX_PER_SEC +
        prSegDur PX_PER_SEC stemiOpts + qrsDur PX_PER_SEC stemiOpts + ((0 : ℕ) : ℚ),
        90 - stemiOpts.stElevation.getD 0) = (((40 : ℚ), (96 : ℚ)) : Point) := by
      norm_num [Prod.ext_iff, pDur, prSegDur, qrsDur, PX_PER_SEC_eq, stemiOpts,
        Option.getD, max_def]
    rw [he] at h0
    exact h0
  · norm_num [stemiOpts, Option.getD]

/-- C4 witness: the theorem's per-beat conjunct instantiated at the first beat. -/
theorem claim4_stemi_st_inverted_witness :
    ((10 + ((0 : ℕ) : ℚ) * (8 / 10 * PX_PER_SEC)) + pDur PX_PER_SEC +
        prSegDur PX_PER_SEC stemiOpts + qrsDur PX_PER_SEC stemiOpts + ((0 : ℕ) : ℚ),
      90 - stemiOpts.stElevation.getD 0) ∈
      buildStrip zeroSin zeroDraws "stemi_inferior" :=
  claim4_stemi_st_inverted.1 0 (by norm_num)

/-- Bound on the QRS profile: its four phases are `-0.3, 1.2, -0.4, 0`. -/
theorem abs_qrsShape_le (t : ℚ) : |qrsShape t| ≤ 12 / 10 := by
  rw [qrsShape]
  split_ifs <;> rw [abs_le] <;> constructor <;> norm_num

/-- Amplitude bound for a default-options beat: every sample deviates from the
baseline 90 by at most the QRS peak `1.2 * 22`, provided the sine stub is bounded
by 1 as `Math.sin` is. -/
theorem genNormalBeat_default_amp_bound {sinpi : ℚ → ℚ} {x0 : ℚ}
    (hs : ∀ t, |sinpi t| ≤ 1) {p : Point}
    (hp : p ∈ genNormalBeat sinpi x0 PX_PER_SEC {}) : |p.2 - 90| ≤ 12 / 10 * 22 := by
  rcases genNormalBeat_snd_cases hp with ⟨i, hv⟩ | hv | ⟨i, hv⟩ | hv | ⟨i, hv⟩
  · rw [hv]
    rw [show (90 : ℚ) - sinpi ((i : ℚ) / pDur PX_PER_SEC) *
        (({} : BeatOptions).amp.getD 22 * (25 / 100)) - 90 =
        -(sinpi ((i : ℚ) / pDur PX_PER_SEC) * (22 * (25 / 100))) from by
      norm_num [Option.getD]]
    rw [abs_neg, abs_mul]
    have h1 := hs ((i : ℚ) / pDur PX_PER_SEC)
    have h2 : |(22 : ℚ) * (25 / 100)| = 11 / 2 := by norm_num
    rw [h2]
    nlinarith [abs_nonneg (sinpi ((i : ℚ) / pDur PX_PER_SEC))]
  · rw [hv]
    norm_num
  · rw [hv]
    rw [show (90 : ℚ) - qrsShape ((i : ℚ) / qrsDur PX_PER_SEC {}) *
        (({} : BeatOptions).amp.getD 22) - 90 =
        -(qrsShape ((i : ℚ) / qrsDur PX_PER_SEC {}) * 22) from by
      norm_num [Option.getD]]
    rw [abs_neg, abs_mul]
    have h1 := abs_qrsShape_le ((i : ℚ) / qrsDur PX_PER_SEC {})
    have h2 : |(22 : ℚ)| = 22 := by norm_num
    rw [h2]
    nlinarith [abs_nonneg (qrsShape ((i : ℚ) / qrsDur PX_PER_SEC {}))]
  · rw [hv]
    norm_num [Option.getD]
  · rw [hv]
    rw [show (90 : ℚ) - sinpi ((i : ℚ) / tDur PX_PER_SEC) *
        (({} : BeatOptions).amp.getD 22 * (4 / 10)) * (({} : BeatOptions).tPolarity.getD 1) - 90 =
        -(sinpi ((i : ℚ) / tDur PX_PER_SEC) * (22 * (4 / 10))) from by
      norm_num [Option.getD]]
    rw [abs_neg, abs_mul]
    have h1 := hs ((i : ℚ) / tDur PX_PER_SEC)
    have h2 : |(22 : ℚ) * (4 / 10)| = 44 / 5 := by norm_num
    rw [h2]
    nlinarith [abs_nonneg (sinpi ((i : ℚ) / tDur PX_PER_SEC))]

/-- C6, corrected. `buildStrip("sinus")` consists of exactly 8 beats (within the
claimed 6-to-8 range) at starts `10 + 100 n`; each beat contains the positive QRS
spike sample at amplitude `90 - 1.2 * 22`, a deflection of `1.2 * 22 = 26.4` from the
baseline — 120% of the configured amplitude scale 22, not within 5% of it (see the
counterexample) — and no sample deflects by more when `|sinpi| <= 1`. -/
theorem claim6_sinus_beats (sinpi : ℚ → ℚ) (u : ℕ → ℚ) (hs : ∀ t, |sinpi t| ≤ 1) :
    buildStrip sinpi u "sinus" =
      (List.range 8).flatMap (fun (n : ℕ) =>
        genNormalBeat sinpi (10 + (n : ℚ) * (60 / 75 * PX_PER_SEC)) PX_PER_SEC {}) ∧
      (∀ n : ℕ, n < 8 →
        ((10 + (n : ℚ) * (60 / 75 * PX_PER_SEC)) + pDur PX_PER_SEC +
            prSegDur PX_PER_SEC {} + ((2 : ℕ) : ℚ),
          90 - 12 / 10 * 22) ∈ buildStrip sinpi u "sinus") ∧
      (∀ p ∈ buildStrip sinpi u "sinus", |p.2 - 90| ≤ 12 / 10 * 22) := by
  have hbs : buildStrip sinpi u "sinus" = genSinusStrip sinpi 75 {} := by
    simp [buildStrip]
  refine ⟨?_, fun n hn => sinusStrip_qrs_sample sinpi u n hn, ?_⟩
  · rw [hbs, genSinusStrip, tiledStrip, tileCount_sinus]
  · intro p hp
    rw [hbs, genSinusStrip, tiledStrip] at hp
    obtain ⟨n, _, hpm⟩ := List.mem_flatMap.mp hp
    exact genNormalBeat_default_amp_bound hs hpm

/-- C6 counterexample: the first beat's QRS spike sample `(32, 90 - 26.4)` deflects
by `26.4` from baseline, and `26.4` is not within 5% of the amplitude scale 22. -/
theorem claim6_counterexample :
    ((32 : ℚ), 90 - 12 / 10 * 22) ∈ buildStrip zeroSin zeroDraws "sinus" ∧
      |(90 - 12 / 10 * 22 : ℚ) - 90| = 12 / 10 * 22 ∧
      ¬(|(12 / 10 * 22 : ℚ) - 22| ≤ 5 / 100 * 22) := by
  refine ⟨?_, ?_, ?_⟩
  · have hm := sinusStrip_qrs_sample zeroSin zeroDraws 0 (by norm_num)
    have he : ((10 + ((0 : ℕ) : ℚ) * (60 / 75 * PX_PER_SEC)) + pDur PX_PER_SEC +
        prSegDur PX_PER_SEC {} + ((2 : ℕ) : ℚ), (90 - 12 / 10 * 22 : ℚ)) =
        (((32 : ℚ), 90 - 12 / 10 * 22) : Point) := by
      norm_num [Prod.ext_iff, pDur, prSegDur, PX_PER_SEC_eq, Option.getD, max_def]
    rw [he] at hm
    exact hm
  · rw [show (90 - 12 / 10 * 22 : ℚ) - 90 = -(12 / 10 * 22) from by ring, abs_neg,
      abs_of_nonneg (by norm_num : (0 : ℚ) ≤ 12 / 10 * 22)]
  · rw [show (12 / 10 * 22 : ℚ) - 22 = 22 / 5 from by norm_num,
      abs_of_nonneg (by norm_num : (0 : ℚ) ≤ 22 / 5)]
    norm_num

/-- C6 witness: the beat-structure conjunct of the theorem at the zero sine stub. -/
theorem claim6_sinus_beats_witness :
    buildStrip zeroSin zeroDraws "sinus" =
      (List.range 8).flatMap (fun (n : ℕ) =>
        genNormalBeat zeroSin (10 + (n : ℚ) * (60 / 75 * PX_PER_SEC)) PX_PER_SEC {}) :=
  (claim6_sinus_beats zeroSin zeroDraws (by intro t; norm_num [zeroSin])).1

theorem flutterBase_length (width : ℕ) (amp rate : ℚ) :
    (flutterBase width amp rate).length = width := by
  simp [flutterBase]

/-- At the canonical strip width, the overlay's outer loop visits exactly the starts
0 and 600 (`pixelsPerWave * 4 = 600`). -/
theorem forStarts_flutter :
    forStarts ((stripWidthN : ℚ) * (60 / 300) * 4) (stripWidthN : ℚ) =
      [0, 600] := by
  rw [forStarts, if_pos (by norm_num [stripWidthN])]
  have hc : ⌈(stripWidthN : ℚ) / ((stripWidthN : ℚ) * (60 / 300) * 4)⌉₊ = 2 := by
    rw [show (stripWidthN : ℚ) / ((stripWidthN : ℚ) * (60 / 300) * 4) = 5 / 4 from by
      norm_num [stripWidthN]]
    rw [Nat.ceil_eq_iff] <;> norm_num
  rw [hc]
  norm_num [List.range_succ, stripWidthN]

/-- Each overlay write of the canonical flutter strip targets an index inside one of
the two conducted-beat windows `[0, 60)` and `[600, 660)`. -/
theorem flutterWrites_mem_window {w : ℕ × ℚ}
    (hw : w ∈ flutterWrites stripWidthN 300 750) :
    w.1 < 60 ∨ (600 ≤ w.1 ∧ w.1 < 660) := by
  simp only [flutterWrites] at hw
  rw [forStarts_flutter] at hw
  obtain ⟨start, hstart, hk⟩ := List.mem_flatMap.mp hw
  obtain ⟨k, hkr, hwk⟩ := List.mem_map.mp hk
  rw [List.mem_range] at hkr
  have hk60 : k < 60 := by
    have hceil : ⌈(8 : ℚ) / 100 * stripWidthN⌉₊ = 60 := by norm_num [stripWidthN]
    rwa [hceil] at hkr
  have hstart2 : start = 0 ∨ start = 600 := by simpa using hstart
  rcases hstart2 with rfl | rfl
  · left
    have hfl : ⌊(0 : ℚ) + (k : ℚ)⌋ = (k : ℤ) := by
      rw [zero_add]
      exact Int.floor_natCast k
    have hidx : w.1 = (min (((750 : ℕ) : ℤ) - 1) (k : ℤ)).toNat := by
      rw [← hwk, hfl]
    have hmin : min (((750 : ℕ) : ℤ) - 1) (k : ℤ) = (k : ℤ) :=
      min_eq_right (by omega)
    rw [hidx, hmin]
    omega
  · right
    have hfl : ⌊(600 : ℚ) + (k : ℚ)⌋ = 600 + (k : ℤ) := by
      rw [show ((600 : ℚ) + (k : ℚ)) = ((600 + (k : ℤ) : ℤ) : ℚ) from by push_cast; ring]
      exact Int.floor_intCast _
    have hidx : w.1 = (min (((750 : ℕ) : ℤ) - 1) (600 + (k : ℤ))).toNat := by
      rw [← hwk, hfl]
    have hmin : min (((750 : ℕ) : ℤ) - 1) (600 + (k : ℤ)) = 600 + (k : ℤ) :=
      min_eq_right (by omega)
    rw [hidx, hmin]
    omega

/-- C7, confirmed. The flutter baseline is periodic with period
`pixelsPerWave = width * (60/300) = 150`: any two in-range indices 150 apart that both
avoid the conducted-beat overlay windows `[0, 60)` and `[600, 660)` carry equal
amplitudes (exactly equal — the embedding computes in exact rationals). -/
theorem claim7_flutter_periodic (i : ℕ) (h60 : 60 ≤ i) (hi : i + 150 < 750)
    (h3 : ¬(600 ≤ i ∧ i < 660)) (h4 : ¬(600 ≤ i + 150 ∧ i + 150 < 660)) :
    ((genAflutter stripWidthN 18 300)[i]?).map Prod.snd =
      ((genAflutter stripWidthN 18 300)[i + 150]?).map Prod.snd := by
  have hbl : (flutterBase stripWidthN 18 300).length = 750 := by
    rw [flutterBase_length, stripWidthN]
  have huntouched : ∀ j : ℕ, 60 ≤ j → ¬(600 ≤ j ∧ j < 660) →
      (genAflutter stripWidthN 18 300)[j]? = (flutterBase stripWidthN 18 300)[j]? := by
    intro j hj60 hjw
    rw [genAflutter, hbl]
    apply applyWrites_getElem_ne
    intro w hw
    rcases flutterWrites_mem_window hw with h | h
    · omega
    · omega
  rw [huntouched i h60 h3, huntouched (i + 150) (by omega) h4]
  have hi750 : i < stripWidthN := by rw [stripWidthN]; omega
  have hi150 : i + 150 < stripWidthN := by rw [stripWidthN]; omega
  simp only [flutterBase]
  rw [List.getElem?_map, List.getElem?_map, List.getElem?_range hi750,
    List.getElem?_range hi150]
  simp only [Option.map_some']
  have hppw : (stripWidthN : ℚ) * (60 / 300) = 150 := by norm_num [stripWidthN]
  rw [hppw]
  have hjm : jsMod ((i + 150 : ℕ) : ℚ) 150 = jsMod ((i : ℕ) : ℚ) 150 := by
    rw [jsMod, jsMod]
    have hcast : ((i + 150 : ℕ) : ℚ) = (i : ℚ) + 150 := by push_cast; ring
    rw [hcast]
    have hdiv : ((i : ℚ) + 150) / 150 = (i : ℚ) / 150 + 1 := by ring
    rw [hdiv, Int.floor_add_one]
    push_cast
    ring
  rw [hjm]

/-- C7 witness: periodicity applied at the concrete index pair `(100, 250)`. -/
theorem claim7_flutter_periodic_witness :
    ((genAflutter stripWidthN 18 300)[100]?).map Prod.snd =
      ((genAflutter stripWidthN 18 300)[250]?).map Prod.snd :=
  claim7_flutter_periodic 100 (by norm_num) (by norm_num) (by omega) (by omega)

/-- Every clamped flutter overlay index stays below `len` (the array length): this is
exactly what `Math.min(points.length - 1, ...)` enforces. -/
theorem flutterWrites_index_lt {width : ℕ} {rate : ℚ} {len : ℕ} (hlen : 0 < len)
    {w : ℕ × ℚ} (hw : w ∈ flutterWrites width rate len) : w.1 < len := by
  simp only [flutterWrites] at hw
  obtain ⟨start, _, hk⟩ := List.mem_flatMap.mp hw
  obtain ⟨k, _, hwk⟩ := List.mem_map.mp hk
  have hidx : w.1 = (min ((len : ℤ) - 1) ⌊start + (k : ℚ)⌋).toNat := by rw [← hwk]
  have hle : min ((len : ℤ) - 1) ⌊start + (k : ℚ)⌋ ≤ (len : ℤ) - 1 := min_le_left _ _
  rw [hidx]
  omega

/-- Every fibrillation overlay index stays below `width`: the loop guard
`cursor + k < width` bounds `Math.floor(cursor + k)` whenever the cursor is
nonnegative. -/
theorem afibWrites_index_lt {width : ℕ} {cursor : ℚ} (hc : 0 ≤ cursor) {w : ℕ × ℚ}
    (hw : w ∈ afibWrites width cursor) : w.1 < width := by
  rw [afibWrites] at hw
  obtain ⟨k, hkr, hwk⟩ := List.mem_map.mp hw
  rw [List.mem_range] at hkr
  have hk2 : k < ⌈(width : ℚ) - cursor⌉₊ := lt_of_lt_of_le hkr (min_le_right _ _)
  have hkq : (k : ℚ) < (width : ℚ) - cursor := Nat.lt_ceil.mp hk2
  have hsum : cursor + (k : ℚ) < (width : ℚ) := by linarith
  have hfl : ⌊cursor + (k : ℚ)⌋ < (width : ℤ) := Int.floor_lt.mpr (by exact_mod_cast hsum)
  have hnn : 0 ≤ ⌊cursor + (k : ℚ)⌋ :=
    Int.floor_nonneg.mpr (by positivity)
  have hidx : w.1 = (⌊cursor + (k : ℚ)⌋).toNat := by rw [← hwk]
  rw [hidx]
  omega

/-- C10, confirmed. For positive `width`, `genAflutter` and `genAfib` each return
exactly `width` samples whose time-positions are `0, 1, ..., width - 1` (the overlays
rewrite only amplitudes), and every overlay write index is in range: the flutter
overlay by its `min(len - 1, ...)` clamp, the fibrillation overlay by its
`cursor + k < width` guard for every nonnegative cursor. -/
theorem claim10_overlay_safety (u : ℕ → ℚ) (width : ℕ) (hw : 0 < width) :
    (genAflutter width 18 300).map Prod.fst =
        (List.range width).map (fun (i : ℕ) => (i : ℚ)) ∧
      (genAflutter width 18 300).length = width ∧
      (genAfib u width).map Prod.fst =
        (List.range width).map (fun (i : ℕ) => (i : ℚ)) ∧
      (genAfib u width).length = width ∧
      (∀ w ∈ flutterWrites width 300 width, w.1 < width) ∧
      (∀ cursor : ℚ, 0 ≤ cursor → ∀ w ∈ afibWrites width cursor, w.1 < width) := by
  refine ⟨genAflutter_map_fst width 18 300, ?_, genAfib_map_fst u width, ?_, ?_, ?_⟩
  · have h := congrArg List.length (genAflutter_map_fst width 18 300)
    simpa using h
  · have h := congrArg List.length (genAfib_map_fst u width)
    simpa using h
  · intro w hwm
    exact flutterWrites_index_lt hw hwm
  · intro cursor hc w hwm
    exact afibWrites_index_lt hc hwm

/-- C10 witness: the safety theorem applied at width 3. -/
theorem claim10_overlay_safety_witness :
    0 < 3 ∧ (genAflutter 3 18 300).map Prod.fst =
      (List.range 3).map (fun (i : ℕ) => (i : ℚ)) :=
  ⟨by norm_num, (claim10_overlay_safety zeroDraws 3 (by norm_num)).1⟩

/-- C5 witness: the PR-interval conjunct of the firstdeg theorem. -/
theorem claim5_firstdeg_pr_witness :
    pDur PX_PER_SEC + prSegDur PX_PER_SEC firstdegOpts = 26 / 100 * PX_PER_SEC :=
  (claim5_firstdeg_pr zeroSin zeroDraws).2.1
